import Mathlib

/-!
Shallow embedding of the CPPDataStore repository (src/DataObject.hpp,
src/DataObject.cpp): a DataValue tagged variant, DataObject records and a
DataObjectCollection with binary save/load.  Machine integers are modelled
as Nat (uint32_t, wrapping modulo 2^32) and Int (int32_t, serialized in
two's complement); a float payload is modelled by the Nat whose four bytes
are its IEEE-754 bit pattern, since the code only ever copies those bytes
verbatim.  Byte streams are lists of Nat with 32-bit fields little-endian.
File I/O is modelled by passing the file contents explicitly (an Option,
none meaning the stat call failed / file missing) and stream failures and
the unrecognized-tag throw by Except.
-/

namespace CPPDataStore

/-- Model of std::string: the list of its bytes. -/
abbrev Str : Type := List Nat

/-- Lexicographic byte comparison, the std::less ordering that
map(string, DataValue) keys are sorted by. -/
def strLt : Str → Str → Bool
  | [], [] => false
  | [], _ :: _ => true
  | _ :: _, [] => false
  | a :: as, b :: bs =>
    if a < b then true
    else if b < a then false
    else strLt as bs

/-- Model of DataValue: tagged union of a string, an int32_t, or a float
(the float represented by its 32-bit pattern). -/
inductive DataValue : Type where
  | stringValue (s : Str)
  | intValue (v : Int)
  | floatValue (bits : Nat)
deriving DecidableEq, Repr

/-- Default constructor DataValue::DataValue(): INTEGER with value zero. -/
def DataValue.default : DataValue := .intValue 0

/-- Tag byte of the type enum (STRING = 0, INTEGER = 1, FLOAT = 2), the
first byte DataValue::serialize writes. -/
def DataValue.tag : DataValue → Nat
  | .stringValue _ => 0
  | .intValue _ => 1
  | .floatValue _ => 2

/-- Bytes emitted by stream.write of a uint32_t: the four little-endian
bytes of the low 32 bits of n. -/
def serU32 (n : Nat) : List Nat :=
  [n % 256, n / 256 % 256, n / 65536 % 256, n / 16777216 % 256]

/-- Error kinds: ioError for a failed stream open or read, formatError for
the unrecognized-tag throw in DataValue::deserialize. -/
inductive DecErr : Type where
  | ioError
  | formatError
deriving DecidableEq, Repr

/-- Bytes consumed by stream.read into a uint32_t: a 4-byte little-endian
unsigned integer, failing when fewer than 4 bytes remain. -/
def deU32 : List Nat → Except DecErr (Nat × List Nat)
  | b0 :: b1 :: b2 :: b3 :: rest =>
    .ok (b0 + 256 * b1 + 65536 * b2 + 16777216 * b3, rest)
  | _ => .error .ioError

/-- Model of serializeString: writes the uint32_t-truncated length, then
that many bytes of the string. -/
def serializeString (s : Str) : List Nat :=
  serU32 s.length ++ s.take (s.length % 2 ^ 32)

/-- Model of deserializeString: reads a length, then that many bytes. -/
def deserializeString (input : List Nat) : Except DecErr (Str × List Nat) := do
  let (len, r) ← deU32 input
  if len ≤ r.length then .ok (r.take len, r.drop len) else .error .ioError

/-- Value of an int32_t read back from its 4-byte two's-complement
pattern. -/
def decodeI32 (n : Nat) : Int :=
  if n < 2 ^ 31 then (n : Int) else (n : Int) - 2 ^ 32

/-- Model of DataValue::serialize: one tag byte, then the payload (string
codec, two's-complement int32, or the 4 float pattern bytes). -/
def DataValue.serialize : DataValue → List Nat
  | .stringValue s => 0 :: serializeString s
  | .intValue v => 1 :: serU32 (v % (2 ^ 32 : Int)).toNat
  | .floatValue bits => 2 :: serU32 bits

/-- Model of DataValue::deserialize: reads the tag byte, then the payload
matching that tag; any other tag value hits the default case and throws
runtime_error (formatError here). -/
def DataValue.deserialize (input : List Nat) : Except DecErr (DataValue × List Nat) :=
  match input with
  | [] => .error .ioError
  | t :: rest =>
    if t = 0 then do
      let (s, r) ← deserializeString rest
      .ok (.stringValue s, r)
    else if t = 1 then do
      let (n, r) ← deU32 rest
      .ok (.intValue (decodeI32 n), r)
    else if t = 2 then do
      let (n, r) ← deU32 rest
      .ok (.floatValue n, r)
    else .error .formatError

/-- Insert-or-assign on the key-sorted association list modelling
map(string, DataValue): the effect of entries[key] = value. -/
def mapInsert (k : Str) (v : DataValue) : List (Str × DataValue) → List (Str × DataValue)
  | [] => [(k, v)]
  | (k1, v1) :: rest =>
    if strLt k k1 then (k, v) :: (k1, v1) :: rest
    else if strLt k1 k then (k1, v1) :: mapInsert k v rest
    else (k, v) :: rest

/-- Lookup on the association list; std::map key equivalence for strings
coincides with equality. -/
def mapFind (k : Str) : List (Str × DataValue) → Option DataValue
  | [] => none
  | (k1, v1) :: rest => if k1 = k then some v1 else mapFind k rest

/-- Model of DataObject: the id and the key-sorted entry map. -/
structure DataObject : Type where
  id : Nat
  entries : List (Str × DataValue)
deriving DecidableEq, Repr

/-- Default constructor DataObject::DataObject(): id 0, no entries. -/
def DataObject.empty : DataObject := { id := 0, entries := [] }

/-- Model of DataObject::setEntry: entries[key] = value followed by a
map::insert of the same pair, which is then a no-op; net effect is an
upsert. -/
def DataObject.setEntry (o : DataObject) (k : Str) (v : DataValue) : DataObject :=
  { o with entries := mapInsert k v o.entries }

/-- Model of DataObject::getEntry: map::operator[], which default-inserts
DataValue() = INTEGER 0 when the key is absent.  Returns the value the
returned pointer refers to, paired with the record afterwards. -/
def DataObject.getEntry (o : DataObject) (k : Str) : DataValue × DataObject :=
  match mapFind k o.entries with
  | some v => (v, o)
  | none => (DataValue.default, { o with entries := mapInsert k DataValue.default o.entries })

/-- Body of the per-entry loop of DataObject::serialize, in map iteration
order. -/
def serializeEntries : List (Str × DataValue) → List Nat
  | [] => []
  | (k, v) :: rest => serializeString k ++ v.serialize ++ serializeEntries rest

/-- Model of DataObject::serialize: id, entry count, then each key and
value in map (ascending-key) order. -/
def DataObject.serialize (o : DataObject) : List Nat :=
  serU32 o.id ++ serU32 o.entries.length ++ serializeEntries o.entries

/-- Body of the entry-reading loop of DataObject::deserialize. -/
def deserializeEntries (n : Nat) (o : DataObject) (input : List Nat) :
    Except DecErr (DataObject × List Nat) :=
  match n with
  | 0 => .ok (o, input)
  | m + 1 => do
    let (k, r1) ← deserializeString input
    let (v, r2) ← DataValue.deserialize r1
    deserializeEntries m { o with entries := mapInsert k v o.entries } r2

/-- Model of DataObject::deserialize: reads the id and the entry count,
then that many (key, value) pairs into the entry map. -/
def DataObject.deserialize (o : DataObject) (input : List Nat) :
    Except DecErr (DataObject × List Nat) := do
  let (i, r1) ← deU32 input
  let (n, r2) ← deU32 r1
  deserializeEntries n { o with id := i } r2

/-- Model of DataObjectCollection: backing path, uint32_t nextId counter,
and the object sequence. -/
structure DataObjectCollection : Type where
  path : String
  nextId : Nat
  objects : List DataObject
deriving DecidableEq, Repr

/-- Constructor DataObjectCollection::DataObjectCollection(path). -/
def mkCollection (path : String) : DataObjectCollection :=
  { path := path, nextId := 1, objects := [] }

/-- Body of the serialization loop of DataObjectCollection::save. -/
def serializeObjects : List DataObject → List Nat
  | [] => []
  | o :: rest => o.serialize ++ serializeObjects rest

/-- Model of DataObjectCollection::save: the bytes written to the file,
nextId then object count then every object in sequence order. -/
def DataObjectCollection.save (c : DataObjectCollection) : List Nat :=
  serU32 c.nextId ++ serU32 c.objects.length ++ serializeObjects c.objects

/-- Body of the object-reading loop of DataObjectCollection::load: each
decoded object is pushed onto the given sequence (the code pushes onto its
existing member vector without clearing it). -/
def loadObjects (n : Nat) (objs : List DataObject) (input : List Nat) :
    Except DecErr (List DataObject × List Nat) :=
  match n with
  | 0 => .ok (objs, input)
  | m + 1 => do
    let (o, r) ← DataObject.deserialize DataObject.empty input
    loadObjects m (objs ++ [o]) r

/-- Model of DataObjectCollection::load, the file contents passed
explicitly; none means the stat call failed (missing file) and the method
returns with state untouched. -/
def DataObjectCollection.load (c : DataObjectCollection) (file : Option (List Nat)) :
    Except DecErr DataObjectCollection :=
  match file with
  | none => .ok c
  | some input => do
    let (i, r1) ← deU32 input
    let (n, r2) ← deU32 r1
    let (objs, _) ← loadObjects n c.objects r2
    .ok { c with nextId := i, objects := objs }

/-- Model of DataObjectCollection::createObject: issues id = nextId,
increments the uint32_t counter (wrapping modulo 2^32), appends the new
empty object.  Returns the new object paired with the collection
afterwards. -/
def DataObjectCollection.createObject (c : DataObjectCollection) :
    DataObject × DataObjectCollection :=
  let o : DataObject := { id := c.nextId, entries := [] }
  (o, { c with nextId := (c.nextId + 1) % 2 ^ 32, objects := c.objects ++ [o] })

/-- Scan-and-erase loop of DataObjectCollection::deleteObject: removes the
first object whose id matches, if any. -/
def eraseFirstById : List DataObject → Nat → List DataObject
  | [], _ => []
  | o :: rest, i => if o.id = i then rest else o :: eraseFirstById rest i

/-- Model of DataObjectCollection::deleteObject. -/
def DataObjectCollection.deleteObject (c : DataObjectCollection) (i : Nat) :
    DataObjectCollection :=
  { c with objects := eraseFirstById c.objects i }

/-- Model of DataObjectCollection::getObject: first id match or null. -/
def DataObjectCollection.getObject (c : DataObjectCollection) (i : Nat) :
    Option DataObject :=
  c.objects.find? (fun o => o.id == i)

/-- One public mutating call on the collection, for stating invariants
over call sequences. -/
inductive Op : Type where
  | create
  | delete (i : Nat)
deriving DecidableEq, Repr

/-- Run a sequence of createObject / deleteObject calls, collecting every
id that createObject returned. -/
def runOps (c : DataObjectCollection) (issued : List Nat) :
    List Op → DataObjectCollection × List Nat
  | [] => (c, issued)
  | Op.create :: ops =>
    let r := c.createObject
    runOps r.2 (issued ++ [r.1.id]) ops
  | Op.delete i :: ops => runOps (c.deleteObject i) issued ops

/-- Number of createObject calls in a trace. -/
def countCreates : List Op → Nat
  | [] => 0
  | Op.create :: ops => countCreates ops + 1
  | Op.delete _ :: ops => countCreates ops

/-- Representation invariant of a stored DataValue: each payload fits the
32-bit field it is serialized into. -/
def DataValue.WF : DataValue → Prop
  | .stringValue s => s.length < 2 ^ 32
  | .intValue v => -(2 ^ 31) ≤ v ∧ v < 2 ^ 31
  | .floatValue bits => bits < 2 ^ 32

instance : DecidablePred DataValue.WF := fun v =>
  match v with
  | .stringValue s => inferInstanceAs (Decidable (s.length < 2 ^ 32))
  | .intValue v => inferInstanceAs (Decidable (-(2 ^ 31) ≤ v ∧ v < 2 ^ 31))
  | .floatValue bits => inferInstanceAs (Decidable (bits < 2 ^ 32))

/-- Representation invariant of a DataObject: bounded id, entry count and
key lengths, well-formed values, and the std::map key-sortedness of the
entry list. -/
def DataObject.WF (o : DataObject) : Prop :=
  o.id < 2 ^ 32 ∧ o.entries.length < 2 ^ 32 ∧
    (∀ e ∈ o.entries, e.1.length < 2 ^ 32 ∧ DataValue.WF e.2) ∧
    o.entries.Pairwise (fun a b => strLt a.1 b.1 = true)

instance (o : DataObject) : Decidable o.WF := by
  unfold DataObject.WF; infer_instance

/-- Representation invariant of a collection: bounded counter and object
count, well-formed objects. -/
def DataObjectCollection.WF (c : DataObjectCollection) : Prop :=
  c.nextId < 2 ^ 32 ∧ c.objects.length < 2 ^ 32 ∧ ∀ o ∈ c.objects, o.WF

instance (c : DataObjectCollection) : Decidable c.WF := by
  unfold DataObjectCollection.WF; infer_instance

lemma strLt_irrefl (s : Str) : strLt s s = false := by
  induction s with
  | nil => rfl
  | cons a as ih => simp [strLt, ih]

lemma strLt_asymm {a b : Str} (h : strLt a b = true) : strLt b a = false := by
  induction a generalizing b with
  | nil =>
    cases b with
    | nil => simp [strLt] at h
    | cons y ys => rfl
  | cons x xs ih =>
    cases b with
    | nil => simp [strLt] at h
    | cons y ys =>
      simp only [strLt] at h ⊢
      rcases Nat.lt_trichotomy x y with hlt | heq | hgt
      · simp [hlt, Nat.lt_asymm hlt, Nat.lt_irrefl]
      · subst heq
        simp only [Nat.lt_irrefl, if_false] at h ⊢
        exact ih h
      · simp [hgt, Nat.lt_asymm hgt] at h

lemma strLt_total_eq {a b : Str} (h1 : strLt a b = false) (h2 : strLt b a = false) : a = b := by
  induction a generalizing b with
  | nil =>
    cases b with
    | nil => rfl
    | cons y ys => simp [strLt] at h1
  | cons x xs ih =>
    cases b with
    | nil => simp [strLt] at h2
    | cons y ys =>
      simp only [strLt] at h1 h2
      rcases Nat.lt_trichotomy x y with hlt | heq | hgt
      · simp [hlt] at h1
      · subst heq
        simp only [Nat.lt_irrefl, if_false] at h1 h2
        rw [ih h1 h2]
      · simp [hgt] at h2

lemma mapFind_mapInsert_self (k : Str) (v : DataValue) (m : List (Str × DataValue)) :
    mapFind k (mapInsert k v m) = some v := by
  induction m with
  | nil => simp [mapInsert, mapFind]
  | cons e rest ih =>
    obtain ⟨k1, v1⟩ := e
    by_cases h1 : strLt k k1 = true
    · simp [mapInsert, h1, mapFind]
    · by_cases h2 : strLt k1 k = true
      · have hne : k1 ≠ k := by
          intro he; subst he; rw [strLt_irrefl] at h2; exact Bool.false_ne_true h2
        simp [mapInsert, h1, h2, mapFind, hne, ih]
      · simp [mapInsert, h1, h2, mapFind]

lemma mapInsert_append {k : Str} (v : DataValue) {m : List (Str × DataValue)}
    (h : ∀ e ∈ m, strLt e.1 k = true) : mapInsert k v m = m ++ [(k, v)] := by
  induction m with
  | nil => rfl
  | cons e rest ih =>
    obtain ⟨k1, v1⟩ := e
    have hk1 : strLt k1 k = true := h (k1, v1) (List.mem_cons_self _ _)
    have hk : strLt k k1 = false := strLt_asymm hk1
    simp only [mapInsert, hk, hk1, Bool.false_eq_true, if_false, if_true, List.cons_append]
    rw [ih (fun e he => h e (List.mem_cons_of_mem _ he))]

lemma okBind {ε α β : Type} (a : α) (f : α → Except ε β) :
    (Except.ok a : Except ε α) >>= f = f a := rfl

lemma errBind {ε α β : Type} (e : ε) (f : α → Except ε β) :
    (Except.error e : Except ε α) >>= f = Except.error e := rfl

lemma serU32_length (n : Nat) : (serU32 n).length = 4 := rfl

lemma deU32_serU32_mod (n : Nat) (rest : List Nat) :
    deU32 (serU32 n ++ rest) = .ok (n % 2 ^ 32, rest) := by
  simp only [serU32, List.cons_append, List.nil_append, deU32]
  have : n % 256 + 256 * (n / 256 % 256) + 65536 * (n / 65536 % 256) +
      16777216 * (n / 16777216 % 256) = n % 2 ^ 32 := by omega
  rw [this]

lemma deU32_serU32 {n : Nat} (h : n < 2 ^ 32) (rest : List Nat) :
    deU32 (serU32 n ++ rest) = .ok (n, rest) := by
  rw [deU32_serU32_mod, Nat.mod_eq_of_lt h]

lemma serializeString_eq {s : Str} (h : s.length < 2 ^ 32) :
    serializeString s = serU32 s.length ++ s := by
  unfold serializeString
  rw [Nat.mod_eq_of_lt h, List.take_length]

lemma deserializeString_roundtrip {s : Str} (h : s.length < 2 ^ 32) (rest : List Nat) :
    deserializeString (serializeString s ++ rest) = .ok (s, rest) := by
  rw [serializeString_eq h, List.append_assoc]
  simp only [deserializeString, deU32_serU32 h, okBind]
  rw [if_pos (by simp)]
  simp [List.take_left, List.drop_left]

lemma value_roundtrip {v : DataValue} (h : v.WF) (rest : List Nat) :
    DataValue.deserialize (v.serialize ++ rest) = .ok (v, rest) := by
  cases v with
  | stringValue s =>
    have hs : s.length < 2 ^ 32 := h
    simp only [DataValue.serialize, List.cons_append, DataValue.deserialize]
    rw [if_pos True.intro, deserializeString_roundtrip hs, okBind]
  | intValue n =>
    obtain ⟨h1, h2⟩ : -(2 ^ 31) ≤ n ∧ n < 2 ^ 31 := h
    have hm : (n % (2 ^ 32 : Int)).toNat < 2 ^ 32 := by omega
    simp only [DataValue.serialize, List.cons_append, DataValue.deserialize]
    rw [if_pos True.intro, deU32_serU32 hm, okBind]
    have hd : decodeI32 (n % (2 ^ 32 : Int)).toNat = n := by
      unfold decodeI32
      split <;> omega
    rw [hd]
    simp
  | floatValue bits =>
    have hb : bits < 2 ^ 32 := h
    simp only [DataValue.serialize, List.cons_append, DataValue.deserialize]
    rw [if_pos True.intro, deU32_serU32 hb, okBind]
    simp [okBind]

lemma deserialize_bad_tag {t : Nat} (h : 2 < t) (rest : List Nat) :
    DataValue.deserialize (t :: rest) = .error .formatError := by
  have h0 : t ≠ 0 := by omega
  have h1 : t ≠ 1 := by omega
  have h2 : t ≠ 2 := by omega
  simp [DataValue.deserialize, h0, h1, h2]

lemma deserializeEntries_roundtrip (es : List (Str × DataValue)) (o : DataObject)
    (rest : List Nat)
    (hwf : ∀ e ∈ es, e.1.length < 2 ^ 32 ∧ DataValue.WF e.2)
    (hgt : ∀ e ∈ es, ∀ e1 ∈ o.entries, strLt e1.1 e.1 = true)
    (hs : es.Pairwise (fun a b => strLt a.1 b.1 = true)) :
    deserializeEntries es.length o (serializeEntries es ++ rest) =
      .ok ({ o with entries := o.entries ++ es }, rest) := by
  induction es generalizing o rest with
  | nil => simp [deserializeEntries, serializeEntries]
  | cons e tail ih =>
    obtain ⟨k, v⟩ := e
    obtain ⟨hk, hv⟩ := hwf (k, v) (List.mem_cons_self _ _)
    obtain ⟨hhead, htail⟩ := List.pairwise_cons.mp hs
    simp only [serializeEntries, List.length_cons, List.append_assoc, deserializeEntries]
    rw [deserializeString_roundtrip hk, okBind, value_roundtrip hv, okBind]
    rw [show mapInsert k v o.entries = o.entries ++ [(k, v)] from
      mapInsert_append v (fun e1 he1 => hgt (k, v) (List.mem_cons_self _ _) e1 he1)]
    rw [ih ({ o with entries := o.entries ++ [(k, v)] }) rest
      (fun e he => hwf e (List.mem_cons_of_mem _ he))
      (by
        intro e he e1 he1
        simp only [List.mem_append, List.mem_singleton] at he1
        rcases he1 with h1 | h1
        · exact hgt e (List.mem_cons_of_mem _ he) e1 h1
        · subst h1; exact hhead e he)
      htail]
    simp [List.append_assoc]

lemma object_roundtrip {o : DataObject} (h : o.WF) (rest : List Nat) :
    DataObject.deserialize DataObject.empty (o.serialize ++ rest) = .ok (o, rest) := by
  obtain ⟨hid, hlen, hwf, hs⟩ := h
  simp only [DataObject.serialize, DataObject.deserialize, List.append_assoc]
  rw [deU32_serU32 hid, okBind, deU32_serU32 hlen, okBind]
  rw [deserializeEntries_roundtrip o.entries { DataObject.empty with id := o.id } rest hwf
    (by intro e he e1 he1; simp [DataObject.empty] at he1) hs]
  simp [DataObject.empty]

lemma loadObjects_roundtrip (os : List DataObject) (acc : List DataObject) (rest : List Nat)
    (h : ∀ o ∈ os, o.WF) :
    loadObjects os.length acc (serializeObjects os ++ rest) = .ok (acc ++ os, rest) := by
  induction os generalizing acc with
  | nil => simp [loadObjects, serializeObjects]
  | cons o tail ih =>
    simp only [serializeObjects, List.length_cons, List.append_assoc, loadObjects]
    rw [object_roundtrip (h o (List.mem_cons_self _ _)) (serializeObjects tail ++ rest), okBind]
    rw [ih (acc ++ [o]) (fun o1 ho1 => h o1 (List.mem_cons_of_mem _ ho1))]
    simp

lemma runOps_spec (ops : List Op) (c : DataObjectCollection) (issued : List Nat)
    (h : c.nextId < 2 ^ 32) :
    (runOps c issued ops).1.nextId = (c.nextId + countCreates ops) % 2 ^ 32 ∧
    (runOps c issued ops).2 =
      issued ++ (List.range (countCreates ops)).map (fun i => (c.nextId + i) % 2 ^ 32) := by
  induction ops generalizing c issued with
  | nil =>
    refine ⟨?_, by simp [runOps, countCreates]⟩
    simp only [runOps, countCreates, Nat.add_zero]
    exact (Nat.mod_eq_of_lt h).symm
  | cons op tail ih =>
    cases op with
    | create =>
      have h1 : (c.nextId + 1) % 2 ^ 32 < 2 ^ 32 := Nat.mod_lt _ (by norm_num)
      obtain ⟨ha, hb⟩ :=
        ih { c with nextId := (c.nextId + 1) % 2 ^ 32,
                    objects := c.objects ++ [{ id := c.nextId, entries := [] }] }
          (issued ++ [c.nextId]) h1
      simp only [runOps, DataObjectCollection.createObject] at ha hb ⊢
      refine ⟨?_, ?_⟩
      · rw [ha, Nat.mod_add_mod, countCreates]
        congr 1
        omega
      · rw [hb, countCreates, List.range_succ_eq_map, List.map_cons, List.map_map,
          List.append_assoc, List.singleton_append]
        congr 1
        congr 1
        · rw [Nat.add_zero, Nat.mod_eq_of_lt h]
        · apply List.map_congr_left
          intro i _
          simp only [Function.comp]
          rw [Nat.mod_add_mod]
          congr 1
          omega
    | delete i =>
      simp only [runOps, DataObjectCollection.deleteObject, countCreates]
      exact ih { c with objects := eraseFirstById c.objects i } issued h

lemma countCreates_replicate (n : Nat) : countCreates (List.replicate n Op.create) = n := by
  induction n with
  | zero => rfl
  | succ m ih => simp [List.replicate, countCreates, ih]

lemma eraseFirstById_eq_filter {os : List DataObject} {i : Nat}
    (h : (os.map DataObject.id).Nodup) :
    eraseFirstById os i = os.filter (fun o => o.id != i) := by
  induction os with
  | nil => rfl
  | cons o rest ih =>
    simp only [List.map_cons, List.nodup_cons] at h
    obtain ⟨hni, hnd⟩ := h
    by_cases he : o.id = i
    · subst he
      have h1 : eraseFirstById (o :: rest) o.id = rest := by simp [eraseFirstById]
      have h2 : List.filter (fun o1 => o1.id != o.id) (o :: rest) = rest := by
        simp only [List.filter_cons, bne_self_eq_false, Bool.false_eq_true, if_false]
        rw [List.filter_eq_self.mpr]
        intro o1 ho1
        have hne : o1.id ≠ o.id := fun hc => hni (hc ▸ List.mem_map_of_mem _ ho1)
        simpa using hne
      rw [h1, h2]
    · have hb : (o.id != i) = true := by simpa using he
      simp only [eraseFirstById, if_neg he, List.filter_cons, hb, if_true]
      rw [ih hnd]

lemma eraseFirstById_not_mem {os : List DataObject} {i : Nat}
    (h : i ∉ os.map DataObject.id) : eraseFirstById os i = os := by
  induction os with
  | nil => rfl
  | cons o rest ih =>
    simp only [List.map_cons, List.mem_cons, not_or] at h
    have hne : o.id ≠ i := fun hc => h.1 hc.symm
    simp [eraseFirstById, hne, ih h.2]

lemma serializeEntries_eq_flatten (es : List (Str × DataValue))
    (h : ∀ e ∈ es, e.1.length < 2 ^ 32) :
    serializeEntries es =
      (es.map (fun e => serU32 e.1.length ++ e.1 ++ e.2.serialize)).flatten := by
  induction es with
  | nil => rfl
  | cons e tail ih =>
    obtain ⟨k, v⟩ := e
    have hk : k.length < 2 ^ 32 := h (k, v) (List.mem_cons_self _ _)
    simp only [serializeEntries, List.map_cons, List.flatten_cons]
    rw [serializeString_eq hk, ih (fun e1 he1 => h e1 (List.mem_cons_of_mem _ he1))]

lemma serialize_head_tag (v : DataValue) : v.serialize = v.tag :: v.serialize.tail := by
  cases v <;> rfl

/-- C1: for every well-formed collection state (including one with zero
records), save followed by load on a fresh collection bound to the same
path yields exactly the same nextId and the same sequence of records,
where each record is its id together with its key-sorted entry map (the
canonical representation of the std::map, so the result is independent of
the order in which entries were originally inserted). -/
theorem C1_save_load_roundtrip (c : DataObjectCollection) (h : c.WF) :
    (mkCollection c.path).load (some c.save) =
      .ok { path := c.path, nextId := c.nextId, objects := c.objects } := by
  obtain ⟨hn, hl, ho⟩ := h
  simp only [DataObjectCollection.load, DataObjectCollection.save, mkCollection,
    List.append_assoc]
  rw [deU32_serU32 hn, okBind, deU32_serU32 hl, okBind]
  rw [show serializeObjects c.objects = serializeObjects c.objects ++ [] from
    (List.append_nil _).symm]
  rw [loadObjects_roundtrip c.objects [] [] ho, okBind]
  simp

/-- C1 witness: the round trip evaluated at a concrete two-record
collection. -/
theorem C1_witness :
    DataObjectCollection.WF
        { path := "p", nextId := 3,
          objects := [{ id := 1, entries := [([97], DataValue.intValue 30)] },
                      { id := 2, entries := [] }] } ∧
      (mkCollection "p").load (some (DataObjectCollection.save
          { path := "p", nextId := 3,
            objects := [{ id := 1, entries := [([97], DataValue.intValue 30)] },
                        { id := 2, entries := [] }] })) =
        .ok { path := "p", nextId := 3,
              objects := [{ id := 1, entries := [([97], DataValue.intValue 30)] },
                          { id := 2, entries := [] }] } :=
  ⟨by decide, C1_save_load_roundtrip
    { path := "p", nextId := 3,
      objects := [{ id := 1, entries := [([97], DataValue.intValue 30)] },
                  { id := 2, entries := [] }] } (by decide)⟩

/-- C2: the claim says load replaces the in-memory record sequence
wholesale, as the header comment of DataObjectCollection::load also
promises; the code however never clears the member vector and pushes every
decoded record after the records already present.  Evaluating load on a
collection that already holds the record with id 7, with a file holding
one record with id 1, keeps the stale record: the result holds both. -/
theorem C2_load_appends_code_bug :
    DataObjectCollection.load
        { path := "p", nextId := 5, objects := [{ id := 7, entries := [] }] }
        (some (DataObjectCollection.save
          { path := "p", nextId := 2, objects := [{ id := 1, entries := [] }] })) =
      .ok { path := "p", nextId := 2,
            objects := [{ id := 7, entries := [] }, { id := 1, entries := [] }] } := rfl

/-- C4: getEntry on a key absent from the record materializes a default
INTEGER 0 entry under that key (map::operator[] default-inserts), returns
that value, and afterwards the key maps to INTEGER 0 in the record. -/
theorem C4_getEntry_autovivifies (o : DataObject) (k : Str)
    (h : mapFind k o.entries = none) :
    (o.getEntry k).1 = DataValue.intValue 0 ∧
      mapFind k ((o.getEntry k).2).entries = some (DataValue.intValue 0) := by
  simp only [DataObject.getEntry, h]
  exact ⟨rfl, mapFind_mapInsert_self k _ o.entries⟩

/-- C4 witness: getEntry on the empty record with key byte 97. -/
theorem C4_witness :
    mapFind [97] DataObject.empty.entries = none ∧
      (DataObject.empty.getEntry [97]).1 = DataValue.intValue 0 ∧
      mapFind [97] ((DataObject.empty.getEntry [97]).2).entries =
        some (DataValue.intValue 0) :=
  ⟨rfl, C4_getEntry_autovivifies DataObject.empty [97] rfl⟩

/-- C5: load on a collection freshly constructed at a path with no file
raises no error and leaves the default state, nextId 1 and no records. -/
theorem C5_missing_file_load (p : String) :
    (mkCollection p).load none = .ok { path := p, nextId := 1, objects := [] } := rfl

/-- C3 counterexample: the unamended claim fails because nextId is a
wrapping uint32_t.  After 2^32 - 1 createObject calls from a fresh
collection the counter has wrapped to 0, so nextId does not strictly
exceed the issued id 2^32 - 1: the conjunction of distinctness and
strict dominance is false for this concrete trace. -/
theorem C3_counterexample :
    ¬ ((runOps (mkCollection "p") [] (List.replicate (2 ^ 32 - 1) Op.create)).2.Nodup ∧
        ∀ i ∈ (runOps (mkCollection "p") [] (List.replicate (2 ^ 32 - 1) Op.create)).2,
          i < (runOps (mkCollection "p") [] (List.replicate (2 ^ 32 - 1) Op.create)).1.nextId) := by
  rintro ⟨-, h2⟩
  simp only [mkCollection] at h2
  obtain ⟨ha, hb⟩ := runOps_spec (List.replicate (2 ^ 32 - 1) Op.create)
    (mkCollection "p") [] (by norm_num [mkCollection])
  rw [countCreates_replicate] at ha hb
  simp only [mkCollection] at ha hb
  have hmem : (2 ^ 32 - 1) ∈
      (runOps { path := "p", nextId := 1, objects := [] } []
        (List.replicate (2 ^ 32 - 1) Op.create)).2 := by
    rw [hb]
    refine List.mem_append.mpr (Or.inr ?_)
    simp only [List.mem_map, List.mem_range]
    exact ⟨2 ^ 32 - 2, by norm_num, by norm_num⟩
  have hlt := h2 _ hmem
  rw [ha] at hlt
  omega

/-- C3 (amended): in any interleaving of createObject and deleteObject
calls on a fresh collection in which createObject is called at most
2^32 - 2 times, all ids ever returned by createObject are pairwise
distinct and nextId strictly exceeds every id ever issued, including ids
of since-deleted records; distinctness of all issued ids in particular
means no deleted id is ever reissued.  (The unamended unbounded claim is
refuted by the uint32_t wraparound counterexample.) -/
theorem C3_id_monotonicity (p : String) (ops : List Op)
    (h : countCreates ops + 1 < 2 ^ 32) :
    (runOps (mkCollection p) [] ops).2.Nodup ∧
      ∀ i ∈ (runOps (mkCollection p) [] ops).2,
        i < (runOps (mkCollection p) [] ops).1.nextId := by
  obtain ⟨ha, hb⟩ := runOps_spec ops (mkCollection p) [] (by norm_num [mkCollection])
  simp only [mkCollection] at ha hb ⊢
  have hmap : (List.range (countCreates ops)).map (fun i => (1 + i) % 2 ^ 32) =
      (List.range (countCreates ops)).map (fun i => 1 + i) :=
    List.map_congr_left (fun i hi =>
      Nat.mod_eq_of_lt (by have := List.mem_range.mp hi; omega))
  rw [hb, hmap, List.nil_append]
  constructor
  · exact List.Nodup.map (fun a b hab => by omega) (List.nodup_range _)
  · intro i hi
    obtain ⟨j, hj, hji⟩ := List.mem_map.mp hi
    have hjr := List.mem_range.mp hj
    rw [ha, Nat.mod_eq_of_lt (by omega)]
    omega

/-- C3 witness: the amended invariant evaluated on the concrete trace
create, delete 1, create. -/
theorem C3_witness :
    countCreates [Op.create, Op.delete 1, Op.create] + 1 < 2 ^ 32 ∧
      ((runOps (mkCollection "p") [] [Op.create, Op.delete 1, Op.create]).2.Nodup ∧
        ∀ i ∈ (runOps (mkCollection "p") [] [Op.create, Op.delete 1, Op.create]).2,
          i < (runOps (mkCollection "p") [] [Op.create, Op.delete 1, Op.create]).1.nextId) :=
  ⟨by norm_num [countCreates],
    C3_id_monotonicity "p" [Op.create, Op.delete 1, Op.create] (by norm_num [countCreates])⟩

/-- C10 counterexample: the id 0 is allocated by createObject once the
uint32_t counter wraps: on the trace of 2^32 consecutive createObject
calls from a fresh collection, 0 is among the ids returned. -/
theorem C10_counterexample :
    0 ∈ (runOps (mkCollection "p") [] (List.replicate (2 ^ 32) Op.create)).2 := by
  obtain ⟨-, hb⟩ := runOps_spec (List.replicate (2 ^ 32) Op.create)
    (mkCollection "p") [] (by norm_num [mkCollection])
  rw [countCreates_replicate] at hb
  simp only [mkCollection] at hb ⊢
  rw [hb]
  refine List.mem_append.mpr (Or.inr ?_)
  simp only [List.mem_map, List.mem_range]
  exact ⟨2 ^ 32 - 1, by norm_num, by norm_num⟩

/-- C10 (amended): a fresh collection starts with nextId 1, a
default-constructed DataObject has id 0, and in any interleaving of
createObject and deleteObject calls in which createObject is called at
most 2^32 - 1 times, every id createObject returns is at least 1, so 0
remains usable as an out-of-band marker.  (Without the bound the claim is
refuted by the uint32_t wraparound counterexample.) -/
theorem C10_no_zero_id (p : String) (ops : List Op)
    (h : countCreates ops ≤ 2 ^ 32 - 1) :
    (mkCollection p).nextId = 1 ∧ DataObject.empty.id = 0 ∧
      ∀ i ∈ (runOps (mkCollection p) [] ops).2, 1 ≤ i := by
  refine ⟨rfl, rfl, ?_⟩
  obtain ⟨-, hb⟩ := runOps_spec ops (mkCollection p) [] (by norm_num [mkCollection])
  simp only [mkCollection] at hb ⊢
  rw [hb]
  intro i hi
  simp only [List.nil_append, List.mem_map, List.mem_range] at hi
  obtain ⟨j, hj, hji⟩ := hi
  rw [Nat.mod_eq_of_lt (by omega)] at hji
  omega

/-- C10 witness: the amended property evaluated on the concrete trace
create, create, delete 2. -/
theorem C10_witness :
    countCreates [Op.create, Op.create, Op.delete 2] ≤ 2 ^ 32 - 1 ∧
      ((mkCollection "p").nextId = 1 ∧ DataObject.empty.id = 0 ∧
        ∀ i ∈ (runOps (mkCollection "p") [] [Op.create, Op.create, Op.delete 2]).2, 1 ≤ i) :=
  ⟨by norm_num [countCreates],
    C10_no_zero_id "p" [Op.create, Op.create, Op.delete 2] (by norm_num [countCreates])⟩

/-- C6: for every well-formed record, serialize emits the 4-byte id, then
the 4-byte unsigned entry count, then for each entry in ascending key
order (the std::map iteration order, witnessed by the Pairwise fact) a
4-byte key length, the key bytes, and the entry value encoding, which in
turn starts with its tag byte. -/
theorem C6_record_encoding (o : DataObject) (h : o.WF) :
    o.serialize = serU32 o.id ++ serU32 o.entries.length ++
        (o.entries.map (fun e => serU32 e.1.length ++ e.1 ++ e.2.serialize)).flatten ∧
      o.entries.Pairwise (fun a b => strLt a.1 b.1 = true) ∧
      (∀ n : Nat, (serU32 n).length = 4) ∧
      (∀ e ∈ o.entries, e.2.serialize = e.2.tag :: e.2.serialize.tail) := by
  obtain ⟨-, -, hwf, hs⟩ := h
  refine ⟨?_, hs, serU32_length, fun e _ => serialize_head_tag e.2⟩
  rw [DataObject.serialize, serializeEntries_eq_flatten o.entries (fun e he => (hwf e he).1)]

/-- C6 witness: the encoding shape evaluated on a concrete well-formed
two-entry record. -/
theorem C6_witness :
    DataObject.WF { id := 9, entries := [([97], DataValue.intValue 5),
      ([98, 99], DataValue.stringValue [65])] } ∧
      DataObject.serialize { id := 9, entries := [([97], DataValue.intValue 5),
          ([98, 99], DataValue.stringValue [65])] } =
        serU32 9 ++ serU32 2 ++
          ((([([97], DataValue.intValue 5), ([98, 99], DataValue.stringValue [65])] :
              List (Str × DataValue)).map
            (fun e => serU32 e.1.length ++ e.1 ++ e.2.serialize)).flatten) :=
  ⟨by decide, (C6_record_encoding { id := 9, entries := [([97], DataValue.intValue 5),
      ([98, 99], DataValue.stringValue [65])] } (by decide)).1⟩

/-- C7: DataValue decode reads the tag byte first: every input whose tag
byte is none of 0, 1, 2 fails with the format error, the head of any
encoded value is its tag, the tags are at most 2, and on an encoded
well-formed value the decoder inverts the encoder, returning the value
and the remaining bytes. -/
theorem C7_tag_dispatch (b : Nat) (rest : List Nat) (v : DataValue) (rest2 : List Nat) :
    (2 < b → DataValue.deserialize (b :: rest) = .error .formatError) ∧
      v.serialize.head? = some v.tag ∧ v.tag ≤ 2 ∧
      (v.WF → DataValue.deserialize (v.serialize ++ rest2) = .ok (v, rest2)) := by
  refine ⟨fun hb => deserialize_bad_tag hb rest, ?_, ?_, fun hv => value_roundtrip hv rest2⟩
  · cases v <;> rfl
  · cases v <;> simp [DataValue.tag]

/-- C7 witness: tag byte 3 is rejected with a format error, and the
encoded INTEGER 5 decodes back to itself leaving the trailing byte. -/
theorem C7_witness :
    DataValue.deserialize (3 :: [0, 0, 0, 0]) = .error .formatError ∧
      DataValue.deserialize (DataValue.serialize (DataValue.intValue 5) ++ [9]) =
        .ok (DataValue.intValue 5, [9]) :=
  ⟨(C7_tag_dispatch 3 [0, 0, 0, 0] (DataValue.intValue 5) [9]).1 (by norm_num),
    (C7_tag_dispatch 3 [0, 0, 0, 0] (DataValue.intValue 5) [9]).2.2.2 (by decide)⟩

/-- C8: when the ids in the collection are pairwise distinct and the
requested id is present, deleteObject removes exactly the record with that
id (the survivors are the other records, unchanged and in order) and
leaves nextId and the path unchanged. -/
theorem C8_delete_isolation (c : DataObjectCollection) (i : Nat)
    (hmem : i ∈ c.objects.map DataObject.id)
    (hnd : (c.objects.map DataObject.id).Nodup) :
    (c.deleteObject i).objects = c.objects.filter (fun o => o.id != i) ∧
      i ∉ ((c.deleteObject i).objects.map DataObject.id) ∧
      (c.deleteObject i).nextId = c.nextId ∧
      (c.deleteObject i).path = c.path := by
  have hf : (c.deleteObject i).objects = c.objects.filter (fun o => o.id != i) := by
    simp only [DataObjectCollection.deleteObject]
    exact eraseFirstById_eq_filter hnd
  refine ⟨hf, ?_, rfl, rfl⟩
  rw [hf]
  intro hmem2
  obtain ⟨o, ho, hoi⟩ := List.mem_map.mp hmem2
  have := List.of_mem_filter ho
  rw [hoi] at this
  simp at this

/-- C8 witness: deleting id 1 from a concrete two-record collection. -/
theorem C8_witness :
    1 ∈ (DataObjectCollection.objects
        { path := "p", nextId := 3,
          objects := [{ id := 1, entries := [] }, { id := 2, entries := [] }] }).map
          DataObject.id ∧
      (DataObjectCollection.deleteObject
        { path := "p", nextId := 3,
          objects := [{ id := 1, entries := [] }, { id := 2, entries := [] }] } 1).objects =
        (DataObjectCollection.objects
          { path := "p", nextId := 3,
            objects := [{ id := 1, entries := [] }, { id := 2, entries := [] }] }).filter
          (fun o => o.id != 1) :=
  ⟨by decide,
    (C8_delete_isolation
      { path := "p", nextId := 3,
        objects := [{ id := 1, entries := [] }, { id := 2, entries := [] }] } 1
      (by decide) (by decide)).1⟩

/-- C9: deleteObject with an id that no record carries is a complete
no-op: the collection, including its record sequence, nextId and path, is
returned unchanged and no error is raised. -/
theorem C9_delete_absent_noop (c : DataObjectCollection) (i : Nat)
    (h : i ∉ c.objects.map DataObject.id) :
    c.deleteObject i = c := by
  simp [DataObjectCollection.deleteObject, eraseFirstById_not_mem h]

/-- C9 witness: deleting the absent id 5 from a concrete one-record
collection. -/
theorem C9_witness :
    5 ∉ (DataObjectCollection.objects
        { path := "p", nextId := 2, objects := [{ id := 1, entries := [] }] }).map
          DataObject.id ∧
      DataObjectCollection.deleteObject
        { path := "p", nextId := 2, objects := [{ id := 1, entries := [] }] } 5 =
        { path := "p", nextId := 2, objects := [{ id := 1, entries := [] }] } :=
  ⟨by decide,
    C9_delete_absent_noop { path := "p", nextId := 2, objects := [{ id := 1, entries := [] }] } 5
      (by decide)⟩

end CPPDataStore
